import Mathlib

/-!
Verification of the Ludonomia naming-template engine (src/src/App.tsx, the
current revision of the file) against its natural-language specification.

The embedding below translates the data model and the event handlers of the
React component into pure Lean functions.  JavaScript objects built by object
literals and spreads are modelled as insertion-ordered association lists,
which matches the property iteration order `Object.keys` gives for the
string-valued (non integer-like) keys this program uses.  React state updates
are modelled by explicit state passing; a handler that would throw an uncaught
exception is modelled with `Option`/`Except`.  The project-load path is
modelled untyped (a `Json` value) because the source casts the parsed document
without validation beyond a truthiness check.
-/

namespace Ludonomia

/-! ## Association lists modelling JavaScript objects -/

/-- Property lookup on a JavaScript object modelled as an association list in
insertion order (`obj[k]`, `undefined` becoming `none`). -/
def lookupA {α : Type} (l : List (String × α)) (k : String) : Option α :=
  match l with
  | [] => none
  | (k', v) :: rest => if k' = k then some v else lookupA rest k

/-- Update-or-append of a key, modelling the object spread
`\x7b...m, [k]: v\x7d` and plain property assignment: an existing key keeps
its position and gets the new value, a fresh key is appended at the end. -/
def assocSet {α : Type} (l : List (String × α)) (k : String) (v : α) :
    List (String × α) :=
  match l with
  | [] => [(k, v)]
  | (k', v') :: rest =>
    if k' = k then (k, v) :: rest else (k', v') :: assocSet rest k v

/-! ## JavaScript string primitives used by the handlers -/

/-- JavaScript `Array.prototype.join(sep)`: the pieces interleaved with the
separator (empty result for an empty array). -/
def joinWith (sep : String) : List String → String
  | [] => ""
  | [x] => x
  | x :: xs => x ++ sep ++ joinWith sep xs

/-- JavaScript `String.prototype.toLowerCase`, modelled characterwise (the
program only lowercases ASCII tag text). -/
def jsToLower (s : String) : String := String.mk (s.toList.map Char.toLower)

/-- Whitespace test used to model `String.prototype.trim`. -/
def jsIsWs (c : Char) : Bool := c = ' ' || c = '\t' || c = '\n' || c = '\r'

/-- JavaScript `String.prototype.trim` on the character list. -/
def trimChars (l : List Char) : List Char :=
  ((l.dropWhile jsIsWs).reverse.dropWhile jsIsWs).reverse

/-- JavaScript `String.prototype.trim`. -/
def jsTrim (s : String) : String := String.mk (trimChars s.toList)

/-- Scanning substring test on character lists, modelling
`String.prototype.includes`: the needle occurs at some position of the hay. -/
def containsSub (hay needle : List Char) : Bool :=
  match hay with
  | [] => needle.isEmpty
  | _ :: rest => needle.isPrefixOf hay || containsSub rest needle

/-- JavaScript `hay.includes(needle)` on strings. -/
def jsIncludes (hay needle : String) : Bool := containsSub hay.toList needle.toList

/-- Substring occurrence as a structural proposition: the needle appears as a
contiguous segment of the hay. -/
def OccursIn (needle hay : List Char) : Prop :=
  ∃ pre post, hay = pre ++ needle ++ post

/-! ## Typed data model (`ElementDef`, `NameSetDef`, `ConfigObj`) -/

/-- `type ElementDef = \x7b terms: string[] \x7d`. -/
structure ElementDef where
  terms : List String
deriving DecidableEq

/-- `type NameSetDef`: template, delimiter and the optional metadata fields
(`group?: string`, `tags?: string[]`, absent modelled as `none`). -/
structure NameSetDef where
  template : List String
  delimiter : String
  group : Option String
  tags : Option (List String)
deriving DecidableEq

/-- `type ConfigObj`: the whole persisted project.  The two records are
insertion-ordered association lists. -/
structure ConfigObj where
  project_name : String
  nameSets : List (String × NameSetDef)
  elements : List (String × ElementDef)
deriving DecidableEq

/-- The React component state touched by the handlers under study: the config,
the active NameSet name, the template order and the selections record. -/
structure AppState where
  config : ConfigObj
  activeNameSet : String
  templateOrder : List String
  selections : List (String × String)
deriving DecidableEq

/-! ## Handlers of the current revision -/

/-- `handleSelectionChange`: `setSelections(prev => (\x7b...prev, [element]: value\x7d))`. -/
def handleSelectionChange (s : AppState) (element value : String) : AppState :=
  { s with selections := assocSet s.selections element value }

/-- `handleAddTerm`: appends the term to the element's list when it is not yet
present, then unconditionally auto-selects it.  `none` models the uncaught
`TypeError` the updater raises when the element key is absent
(`prev.elements[element]` is `undefined`). -/
def handleAddTerm (s : AppState) (element term : String) : Option AppState :=
  match lookupA s.config.elements element with
  | none => none
  | some wc =>
    let cfg :=
      if term ∈ wc.terms then s.config
      else { s.config with
               elements := assocSet s.config.elements element ⟨wc.terms ++ [term]⟩ }
    some (handleSelectionChange { s with config := cfg } element term)

/-- `handleRemoveElementTerm`: filters the term out of the element's list
(`wc.terms.filter(t => t !== termToRemove)`); no other state is touched.
`none` models the uncaught `TypeError` when the element key is absent. -/
def handleRemoveElementTerm (s : AppState) (element termToRemove : String) :
    Option AppState :=
  match lookupA s.config.elements element with
  | none => none
  | some wc =>
    some { s with
             config := { s.config with
                           elements := assocSet s.config.elements element
                             ⟨wc.terms.filter (fun t => t ≠ termToRemove)⟩ } }

/-- `finalFilename` of the current revision:
`templateOrder.map(wc => ` the name wrapped in braces `).join(' ')`. -/
def finalFilename (templateOrder : List String) : String :=
  joinWith " " (templateOrder.map (fun wc => "\x7b" ++ wc ++ "\x7d"))

/-- The group half of the NameSet list filter of the current revision:
`filterGroup === "All" || nsData.group === filterGroup`. -/
def matchesGroup (filterGroup : String) (nsData : NameSetDef) : Bool :=
  filterGroup = "All" ||
    (match nsData.group with
     | some g => g = filterGroup
     | none => false)

/-- The tag half: `!filterTag.trim() || (nsData.tags && nsData.tags.some(t =>
t.toLowerCase().includes(filterTag.toLowerCase())))`. -/
def matchesTag (filterTag : String) (nsData : NameSetDef) : Bool :=
  (jsTrim filterTag).isEmpty ||
    (match nsData.tags with
     | some tags =>
       tags.any (fun tg => jsIncludes (jsToLower tg) (jsToLower filterTag))
     | none => false)

/-- The filtered NameSet name list rendered by the browser pane:
`Object.keys(config.nameSets).filter(ns => matchesGroup && matchesTag)`. -/
def filterNameSets (cfg : ConfigObj) (filterGroup filterTag : String) :
    List String :=
  (cfg.nameSets.map Prod.fst).filter (fun ns =>
    match lookupA cfg.nameSets ns with
    | some nsData => matchesGroup filterGroup nsData && matchesTag filterTag nsData
    | none => false)

/-- `arrayMove` from `@dnd-kit/sortable`, the reorder primitive used by
`handleDragEnd`: remove the entry at `i`, reinsert it at `j` (faithful for
indices in range, which is the regime the claims quantify over). -/
def arrayMove {α : Type} (l : List α) (i j : Nat) : List α :=
  match l[i]? with
  | some a => (l.eraseIdx i).insertIdx j a
  | none => l

/-- `handleDragEnd`: translates the dragged/target ids to indices with
`indexOf` and applies `arrayMove` when the two ids differ. -/
def handleDragEnd (templateOrder : List String) (activeId overId : String) :
    List String :=
  if activeId ≠ overId then
    arrayMove templateOrder (templateOrder.indexOf activeId)
      (templateOrder.indexOf overId)
  else templateOrder

/-! ## Combinatorial generator (spec §4.5) -/

/-- Modelled from the spec: the repository has no Combinatorial Generator yet
(the spec describes `enumerate` but no source function implements it).  The
cross-product of the factor lists in lexicographic order with the last factor
varying fastest: the first factor's choices are the outer loop, the remaining
factors enumerate completely for each of them. -/
def crossProduct : List (List String) → List (List String)
  | [] => [[]]
  | f :: rest =>
    f.flatMap (fun t => (crossProduct rest).map (fun tup => t :: tup))

/-- Modelled from the spec: factor `i` of a NameSet ranges over
`elements[template[i]].terms` (a missing Element contributes no terms). -/
def factorsOf (ns : NameSetDef) (elements : List (String × ElementDef)) :
    List (List String) :=
  ns.template.map (fun el =>
    match lookupA elements el with
    | some e => e.terms
    | none => [])

/-- Modelled from the spec: `enumerate(nameSet, elements)` is the cross-product
over the template's factors. -/
def enumerate (ns : NameSetDef) (elements : List (String × ElementDef)) :
    List (List String) :=
  crossProduct (factorsOf ns elements)

/-- Modelled from the spec: the mixed-radix decomposition of an index `k` over
the factor sizes, the spec's own characterisation of odometer order (last slot
varying fastest). -/
def odometerTuple (fs : List (List String)) (k : Nat) : List String :=
  match fs with
  | [] => []
  | f :: rest =>
    let m := (rest.map List.length).prod
    (f[k / m]?).getD "" :: odometerTuple rest (k % m)

/-! ## Spec-side statements used to compare against the code -/

/-- Case-insensitive substring occurrence, as the spec words the tag filter. -/
def CaseInsensOccurs (needle hay : String) : Prop :=
  OccursIn (jsToLower needle).toList (jsToLower hay).toList

/-- The NameSet filter predicate exactly as claim C7 words it: the group
filter is "All" or matches exactly, and the tag filter is the empty string or
occurs case-insensitively inside some tag. -/
def ClaimFilterPred (cfg : ConfigObj) (g t ns : String) : Prop :=
  ∃ nsData, lookupA cfg.nameSets ns = some nsData ∧
    (g = "All" ∨ nsData.group = some g) ∧
    (t = "" ∨ ∃ tg ∈ nsData.tags.getD [], CaseInsensOccurs t tg)

/-- The filter predicate amended to the code's actual emptiness test: a tag
filter that trims to the empty string is treated as absent. -/
def AmendedFilterPred (cfg : ConfigObj) (g t ns : String) : Prop :=
  ∃ nsData, lookupA cfg.nameSets ns = some nsData ∧
    (g = "All" ∨ nsData.group = some g) ∧
    (jsTrim t = "" ∨ ∃ tg ∈ nsData.tags.getD [], CaseInsensOccurs t tg)

/-- The preview renderer exactly as claim C6 words it: each template slot maps
to the selection when one is set, else to the placeholder in square brackets,
joined with the NameSet's delimiter. -/
def specRenderClaim (ns : NameSetDef) (selections : List (String × String)) :
    String :=
  joinWith ns.delimiter (ns.template.map (fun el =>
    match lookupA selections el with
    | some v => v
    | none => "[" ++ el ++ "]"))

/-- The amended preview contract: each slot renders as the element name
wrapped in braces, slots are joined by a single space, and neither the
selections nor the delimiter are consulted. -/
def specPreviewAmended : List String → String
  | [] => ""
  | [wc] => "\x7b" ++ wc ++ "\x7d"
  | wc :: rest => "\x7b" ++ wc ++ "\x7d" ++ " " ++ specPreviewAmended rest

/-! ## The untyped JSON world of `handleLoadProject` -/

/-- A parsed JSON document (`JSON.parse` output).  Objects keep their
properties in insertion order. -/
inductive Json where
  | null : Json
  | bool (b : Bool) : Json
  | num (n : Int) : Json
  | str (s : String) : Json
  | arr (xs : List Json) : Json
  | obj (fields : List (String × Json)) : Json

/-- JavaScript truthiness for parsed JSON values (`null`, `false`, `0` and the
empty string are falsy; every object and array is truthy). -/
def truthy : Json → Bool
  | .null => false
  | .bool b => b
  | .num n => n ≠ 0
  | .str s => !s.isEmpty
  | .arr _ => true
  | .obj _ => true

/-- Truthiness of a possibly-undefined value (`undefined` is falsy). -/
def truthyOpt : Option Json → Bool
  | none => false
  | some v => truthy v

/-- Canonical integer-like property name, the form under which JavaScript
exposes array and string indices as keys: all digits, no leading zero (except
`"0"` itself). -/
def natKey (k : String) : Option Nat :=
  match k.toList with
  | [] => none
  | c :: rest =>
    if (c :: rest).all Char.isDigit && (c ≠ '0' || rest.isEmpty) then
      some ((c :: rest).foldl (fun n ch => n * 10 + (ch.toNat - 48)) 0)
    else none

/-- Property read `v[k]` on a non-null value (`undefined` becoming `none`).
Reads on numbers and booleans always give `undefined`. -/
def jsIndex : Json → String → Option Json
  | .obj fs, k => lookupA fs k
  | .arr xs, k =>
    (match natKey k with
     | some i => xs[i]?
     | none => none)
  | .str s, k =>
    (match natKey k with
     | some i => (s.toList[i]?).map (fun c => Json.str (String.mk [c]))
     | none => none)
  | _, _ => none

/-- The failures the load path can hit: a `JSON.parse` error, the explicit
`Invalid project format` throw, and `TypeError`s from the untyped accesses. -/
inductive LoadErr where
  | parseError
  | invalidFormat
  | typeError
deriving DecidableEq

/-- Property read as JavaScript performs it: reading a property of `null`
throws a `TypeError`, any other read yields a value or `undefined`. -/
def jsGetE (v : Json) (k : String) : Except LoadErr (Option Json) :=
  match v with
  | .null => .error .typeError
  | other => .ok (jsIndex other k)

/-- `Object.keys` on a parsed value: property names of an object in insertion
order, index keys for arrays and strings, nothing for primitives. -/
def jsKeys : Json → List String
  | .obj fs => fs.map Prod.fst
  | .arr xs => (List.range xs.length).map (fun i => toString i)
  | .str s => (List.range s.toList.length).map (fun i => toString i)
  | _ => []

/-! ## The JSON parser (`JSON.parse` on the fragment this program emits:
null/true/false, integers, escape-light strings, arrays, objects) -/

/-- The two brace characters, kept as named constants. -/
def lbrace : Char := Char.ofNat 123

/-- The closing brace character. -/
def rbrace : Char := Char.ofNat 125

/-- Skip JSON whitespace. -/
def skipWs (s : List Char) : List Char := s.dropWhile jsIsWs

/-- Parse the body of a JSON string after its opening quote, handling the
simple escapes; returns the content and the input after the closing quote. -/
def parseStrAux : List Char → List Char → Option (String × List Char)
  | _, [] => none
  | acc, c :: rest =>
    if c = '"' then some (String.mk acc.reverse, rest)
    else if c = '\\' then
      match rest with
      | [] => none
      | e :: rest' =>
        if e = '"' then parseStrAux ('"' :: acc) rest'
        else if e = '\\' then parseStrAux ('\\' :: acc) rest'
        else if e = '/' then parseStrAux ('/' :: acc) rest'
        else if e = 'n' then parseStrAux ('\n' :: acc) rest'
        else if e = 't' then parseStrAux ('\t' :: acc) rest'
        else if e = 'r' then parseStrAux ('\r' :: acc) rest'
        else none
    else parseStrAux (c :: acc) rest

/-- Decimal digits to a natural number. -/
def digitsToNat (l : List Char) : Nat :=
  l.foldl (fun n c => n * 10 + (c.toNat - 48)) 0

mutual

/-- Parse one JSON value (fuelled recursion; the fuel is an upper bound on the
recursion depth, supplied generously by `parseJsonChars`). -/
def parseVal : Nat → List Char → Option (Json × List Char)
  | 0, _ => none
  | fuel + 1, s0 =>
    match skipWs s0 with
    | [] => none
    | c :: rest =>
      if c = 'n' then
        if rest.take 3 = ['u', 'l', 'l'] then some (.null, rest.drop 3) else none
      else if c = 't' then
        if rest.take 3 = ['r', 'u', 'e'] then some (.bool true, rest.drop 3) else none
      else if c = 'f' then
        if rest.take 4 = ['a', 'l', 's', 'e'] then some (.bool false, rest.drop 4)
        else none
      else if c = '"' then
        match parseStrAux [] rest with
        | some (str, rest') => some (.str str, rest')
        | none => none
      else if c = '[' then
        match skipWs rest with
        | ']' :: rest' => some (.arr [], rest')
        | s1 => parseArrItems fuel [] s1
      else if c = lbrace then
        match skipWs rest with
        | c' :: rest' =>
          if c' = rbrace then some (.obj [], rest')
          else parseObjMembers fuel [] (c' :: rest')
        | [] => none
      else if c = '-' then
        match rest.span Char.isDigit with
        | (ds, r) =>
          if ds.isEmpty then none
          else some (.num (-(digitsToNat ds : Int)), r)
      else if c.isDigit then
        match (c :: rest).span Char.isDigit with
        | (ds, r) => some (.num (digitsToNat ds : Int), r)
      else none

/-- Parse the comma-separated items of a non-empty array, accumulating in
order, up to the closing bracket. -/
def parseArrItems : Nat → List Json → List Char → Option (Json × List Char)
  | 0, _, _ => none
  | fuel + 1, acc, s =>
    match parseVal fuel s with
    | some (v, r1) =>
      (match skipWs r1 with
       | ',' :: r2 => parseArrItems fuel (acc ++ [v]) r2
       | ']' :: r2 => some (.arr (acc ++ [v]), r2)
       | _ => none)
    | none => none

/-- Parse the members of a non-empty object.  A duplicate key keeps its first
position and takes the later value, as `JSON.parse` does. -/
def parseObjMembers : Nat → List (String × Json) → List Char →
    Option (Json × List Char)
  | 0, _, _ => none
  | fuel + 1, acc, s =>
    match s with
    | c :: rest =>
      if c = '"' then
        match parseStrAux [] rest with
        | some (key, r1) =>
          (match skipWs r1 with
           | ':' :: r2 =>
             (match parseVal fuel r2 with
              | some (v, r3) =>
                (match skipWs r3 with
                 | ',' :: r4 => parseObjMembers fuel (assocSet acc key v) (skipWs r4)
                 | c' :: r4 =>
                   if c' = rbrace then some (.obj (assocSet acc key v), r4) else none
                 | [] => none)
              | none => none)
           | _ => none)
        | none => none
      else none
    | [] => none

end

/-- `JSON.parse` on a character list: one value, then only trailing
whitespace. -/
def parseJsonChars (s : List Char) : Option Json :=
  match parseVal (2 * s.length + 8) s with
  | some (v, rest) => if (skipWs rest).isEmpty then some v else none
  | none => none

/-- `JSON.parse` on a string. -/
def parseJson (t : String) : Option Json := parseJsonChars t.toList

/-! ## The migration layer of `handleLoadProject` -/

/-- Left-to-right, non-overlapping global replacement of a pattern, modelling
`String.prototype.replace` with a global literal regex (fuelled by the input
length, which bounds the number of steps). -/
def replaceAllFuel (pat rep : List Char) : Nat → List Char → List Char
  | 0, s => s
  | _ + 1, [] => []
  | fuel + 1, c :: rest =>
    if pat.isPrefixOf (c :: rest) && !pat.isEmpty then
      rep ++ replaceAllFuel pat rep fuel ((c :: rest).drop pat.length)
    else c :: replaceAllFuel pat rep fuel rest

/-- `s.replace(pat-as-global-regex, rep)` for a literal pattern. -/
def replaceAll (pat rep s : List Char) : List Char :=
  replaceAllFuel pat rep s.length s

/-- The quoted legacy key `"presets"` as it appears in the raw text. -/
def presetsKey : List Char := ('"' :: "presets".toList) ++ ['"']

/-- The quoted replacement `"nameSets"`. -/
def nameSetsKey : List Char := ('"' :: "nameSets".toList) ++ ['"']

/-- The quoted legacy key `"categories"`. -/
def categoriesKey : List Char := ('"' :: "categories".toList) ++ ['"']

/-- The quoted replacement `"elements"`. -/
def elementsKey : List Char := ('"' :: "elements".toList) ++ ['"']

/-- The text-level migration layer: both conditional global replaces, each
conditioned (as in the source) on the original text containing the quoted
legacy key. -/
def migrateText (t : List Char) : List Char :=
  let s1 := if containsSub t presetsKey then replaceAll presetsKey nameSetsKey t else t
  if containsSub t categoriesKey then replaceAll categoriesKey elementsKey s1 else s1

/-- Backfill of one NameSet entry: `group` defaults to `""` and `tags` to `[]`
when the member is absent (`=== undefined`).  On an array JavaScript would
attach the two properties as expando properties invisible to every later read
this program performs, so the array is returned unchanged; on `null` the
member read throws, and on a primitive the strict-mode property assignment
throws. -/
def backfillGroup (fs : List (String × Json)) : List (String × Json) :=
  if (lookupA fs "group").isNone then fs ++ [("group", Json.str "")] else fs

/-- The second backfill assignment: `tags` defaults to `[]` when absent. -/
def backfillTags (fs : List (String × Json)) : List (String × Json) :=
  if (lookupA fs "tags").isNone then fs ++ [("tags", Json.arr [])] else fs

/-- Both backfill assignments in program order. -/
def backfillFields (fs : List (String × Json)) : List (String × Json) :=
  backfillTags (backfillGroup fs)

/-- Backfill of one NameSet entry value of each shape. -/
def backfillEntry (v : Json) : Except LoadErr Json :=
  match v with
  | .obj fs => .ok (.obj (backfillFields fs))
  | .arr xs => .ok (.arr xs)
  | _ => .error .typeError

/-- The successful result of `backfillEntry` on the shapes that do not throw,
as a total function (used to state what backfilling returns on objects). -/
def backfillValue : Json → Json
  | .obj fs => .obj (backfillFields fs)
  | v => v

/-- Backfill over `Object.keys(loadedConfig.nameSets)`: every entry of an
object or array is backfilled in order; a non-empty string would throw on its
first character entry; numbers and booleans have no keys; `Object.keys(null)`
throws (unreachable behind the truthiness check). -/
def backfillNs : Json → Except LoadErr Json
  | .obj fs => do
    let fs' ← fs.mapM (fun kv => do
      let v' ← backfillEntry kv.2
      pure (kv.1, v'))
    pure (Json.obj fs')
  | .arr xs => do
    let xs' ← xs.mapM backfillEntry
    pure (Json.arr xs')
  | .str s => if s.isEmpty then pure (Json.str s) else .error .typeError
  | .null => .error .typeError
  | v => pure v

/-- Replace a top-level property of the document (in-place mutation of the
parsed object in the source). -/
def jsSetKey (doc : Json) (k : String) (v : Json) : Json :=
  match doc with
  | .obj fs => .obj (assocSet fs k v)
  | other => other

/-- The migration pipeline of `handleLoadProject` up to (and including) the
backfill: text replaces, `JSON.parse`, the
`!loadedConfig.nameSets || !loadedConfig.elements` validation throw, then the
group/tags backfill. -/
def migrate (t : String) : Except LoadErr Json :=
  match parseJsonChars (migrateText t.toList) with
  | none => .error .parseError
  | some doc =>
    match jsGetE doc "nameSets" with
    | .error e => .error e
    | .ok nsOpt =>
      match jsGetE doc "elements" with
      | .error e => .error e
      | .ok elOpt =>
        if truthyOpt nsOpt && truthyOpt elOpt then
          match backfillNs (nsOpt.getD .null) with
          | .error e => .error e
          | .ok ns' => .ok (jsSetKey doc "nameSets" ns')
        else .error .invalidFormat

/-- The component state written by the load path, with the untyped values the
source actually stores there. -/
structure LoadedState where
  config : Json
  activeNameSet : String
  templateOrder : Option Json
  selections : List (String × Json)

/-- `x || ""` over a possibly-undefined value. -/
def jsOrEmptyStr (o : Option Json) : Json :=
  match o with
  | some v => if truthy v then v else .str ""
  | none => .str ""

/-- One selection default: `loadedConfig.elements[wc].terms[0] || ""`. -/
def selectionValue (elements : Json) (wc : String) : Except LoadErr Json :=
  match jsGetE elements wc with
  | .error e => .error e
  | .ok none => .error .typeError
  | .ok (some v) =>
    match jsGetE v "terms" with
    | .error e => .error e
    | .ok none => .error .typeError
    | .ok (some terms) =>
      match jsGetE terms "0" with
      | .error e => .error e
      | .ok f => .ok (jsOrEmptyStr f)

/-- The `defaultSels` loop over `Object.keys(loadedConfig.elements)`. -/
def buildSelections (elements : Json) : Except LoadErr (List (String × Json)) :=
  (jsKeys elements).mapM (fun wc => do
    let v ← selectionValue elements wc
    pure (wc, v))

/-- The `firstNameSet` branch: `Object.keys(loadedConfig.nameSets)[0]` is
tested for JavaScript truthiness (`if (firstNameSet)`), so both a missing
first key (`undefined`) and an empty-string first key are falsy and take the
else branch (active name `""`, template order `[]`); otherwise the first key
becomes active and its `template` member the template order. -/
def activeAndTemplate (ns : Json) : Except LoadErr (String × Option Json) :=
  match jsKeys ns with
  | [] => .ok ("", some (.arr []))
  | first :: _ =>
    if first.isEmpty then .ok ("", some (.arr []))
    else
      match jsGetE ns first with
      | .error e => .error e
      | .ok none => .error .typeError
      | .ok (some v) =>
        match jsGetE v "template" with
        | .error e => .error e
        | .ok tOpt => .ok (first, tOpt)

/-- The whole `reader.onload` body: on a migration failure the catch leaves
the state untouched; afterwards each `set...` call is applied in program
order, so a later `TypeError` (caught by the same catch) still leaves the
earlier updates applied — exactly the React update-queue behaviour. -/
def loadProject (s : LoadedState) (t : String) : LoadedState :=
  match migrate t with
  | .error _ => s
  | .ok cfg =>
    let s1 : LoadedState := { s with config := cfg }
    match activeAndTemplate ((jsIndex cfg "nameSets").getD .null) with
    | .error _ => s1
    | .ok (first, tmpl) =>
      let s2 : LoadedState := { s1 with activeNameSet := first, templateOrder := tmpl }
      match buildSelections ((jsIndex cfg "elements").getD .null) with
      | .error _ => s2
      | .ok sels => { s2 with selections := sels }

/-! ## Extractors and concrete documents for the load-path claims -/

/-- Read `doc.elements[el].terms[i]` as a string, the probe used to observe
Term corruption. -/
def termStrAt (doc : Json) (el : String) (i : Nat) : Option String :=
  match jsIndex doc "elements" with
  | some els =>
    (match jsIndex els el with
     | some e =>
       (match jsIndex e "terms" with
        | some (.arr ts) =>
          (match ts[i]? with
           | some (.str s) => some s
           | _ => none)
        | _ => none)
     | _ => none)
  | _ => none

/-- String content of a JSON value. -/
def jsonStr? : Json → Option String
  | .str s => some s
  | _ => none

/-- All-strings reading of a JSON array's entries. -/
def mapStrList : List Json → Option (List String)
  | [] => some []
  | x :: xs =>
    match jsonStr? x, mapStrList xs with
    | some s, some rest => some (s :: rest)
    | _, _ => none

/-- The `terms` member of an element value when it is an array of strings. -/
def termsOfEl (v : Json) : Option (List String) :=
  match jsIndex v "terms" with
  | some (.arr xs) => mapStrList xs
  | _ => none

/-- First term, or the empty string for an empty list — the selection default
the claims describe. -/
def specSelection : List String → String
  | [] => ""
  | s :: _ => s

/-- Whether an `Except` is a success. -/
def isOkE {ε α : Type} : Except ε α → Bool
  | .ok _ => true
  | .error _ => false

/-- A current-schema document containing a Term literally named `presets`
(claim C2). -/
def docC2 : String :=
  "\x7b\"project_name\":\"P\",\"nameSets\":\x7b\"A\":\x7b\"template\":[\"E\"],\"delimiter\":\"_\",\"group\":\"\",\"tags\":[]\x7d\x7d,\"elements\":\x7b\"E\":\x7b\"terms\":[\"presets\"]\x7d\x7d\x7d"

/-- A current-schema document containing a Term literally named `categories`
(claim C3). -/
def docC3 : String :=
  "\x7b\"project_name\":\"Q\",\"nameSets\":\x7b\"B\":\x7b\"template\":[\"F\"],\"delimiter\":\"-\",\"group\":\"g\",\"tags\":[\"x\"]\x7d\x7d,\"elements\":\x7b\"F\":\x7b\"terms\":[\"categories\",\"keep\"]\x7d\x7d\x7d"

/-- A document whose `nameSets` and `elements` members are numbers — present
and truthy but not mappings (claim C4). -/
def docC4 : String := "\x7b\"nameSets\":5,\"elements\":5\x7d"

/-- A concrete pre-load state for the C4 counterexample. -/
def stateC4 : LoadedState := ⟨Json.null, "Locomotion", none, []⟩

/-- The concrete state for the C5 counterexample: element `E` has terms
`a, b` and `a` is the current selection. -/
def stateC5 : AppState :=
  ⟨⟨"P", [], [("E", ⟨["a", "b"]⟩)]⟩, "", [], [("E", "a")]⟩

/-- The concrete config for the C7 counterexample: one NameSet with no tags. -/
def cfgC7 : ConfigObj := ⟨"P", [("N", ⟨[], "_", some "G", some []⟩)], []⟩

/-- The spec's worked example: Elements X and Y (claim C1 witness). -/
def exElements : List (String × ElementDef) :=
  [("X", ⟨["A", "B"]⟩), ("Y", ⟨["1", "2"]⟩)]

/-- The spec's worked example NameSet over X and Y. -/
def exNameSet : NameSetDef := ⟨["X", "Y"], "_", none, none⟩

/-- A small well-formed legacy-free document for the C10 witness: one NameSet
`A` (without `group`/`tags`, so the backfill runs) and one element `E`. -/
def docC10 : String :=
  "\x7b\"nameSets\":\x7b\"A\":\x7b\"template\":[\"E\"],\"delimiter\":\"_\"\x7d\x7d,\"elements\":\x7b\"E\":\x7b\"terms\":[\"x\"]\x7d\x7d\x7d"

/-- A well-formed document whose single NameSet is named by the empty string:
`Object.keys(...)[0]` is `""`, which is falsy, so the load takes the
no-NameSet else branch although the mapping is non-empty (claim C10). -/
def docC10b : String :=
  "\x7b\"nameSets\":\x7b\"\":\x7b\"template\":[\"E\"],\"delimiter\":\"_\"\x7d\x7d,\"elements\":\x7b\"E\":\x7b\"terms\":[\"x\"]\x7d\x7d\x7d"

end Ludonomia

/-! # Theorems -/

set_option maxRecDepth 40000

namespace Ludonomia

theorem lookupA_assocSet_self {α : Type} (l : List (String × α)) (k : String)
    (v : α) : lookupA (assocSet l k v) k = some v := by
  induction l with
  | nil => simp [assocSet, lookupA]
  | cons p rest ih =>
    obtain ⟨k', v'⟩ := p
    by_cases h : k' = k
    · simp [assocSet, lookupA, h]
    · simp [assocSet, lookupA, h, ih]

theorem lookupA_assocSet_ne {α : Type} (l : List (String × α)) (k k' : String)
    (v : α) (h : k ≠ k') : lookupA (assocSet l k v) k' = lookupA l k' := by
  induction l with
  | nil => simp [assocSet, lookupA, h]
  | cons p rest ih =>
    obtain ⟨k₀, v₀⟩ := p
    by_cases h₀ : k₀ = k
    · subst h₀
      simp [assocSet, lookupA, h]
    · simp only [assocSet, if_neg h₀]
      by_cases h₁ : k₀ = k'
      · simp [lookupA, h₁]
      · simp [lookupA, h₁, ih]

theorem containsSub_iff (hay needle : List Char) :
    containsSub hay needle = true ↔ OccursIn needle hay := by
  induction hay with
  | nil =>
    simp only [containsSub, OccursIn, List.isEmpty_iff]
    constructor
    · intro h
      exact ⟨[], [], by simp [h]⟩
    · rintro ⟨pre, post, h⟩
      have h1 := List.append_eq_nil.mp h.symm
      exact (List.append_eq_nil.mp h1.1).2
  | cons c rest ih =>
    simp only [containsSub, Bool.or_eq_true, List.isPrefixOf_iff_prefix, ih]
    constructor
    · rintro (⟨t, ht⟩ | ⟨pre, post, h⟩)
      · exact ⟨[], t, by simp [ht]⟩
      · exact ⟨c :: pre, post, by simp [h]⟩
    · rintro ⟨pre, post, h⟩
      match pre, h with
      | [], h => exact Or.inl ⟨post, by simpa using h.symm⟩
      | p :: ps, h =>
        have h' : rest = ps ++ needle ++ post := by
          have := (List.cons_eq_cons.mp (by simpa using h)).2
          simpa using this
        exact Or.inr ⟨ps, post, h'⟩

theorem sum_map_length_const {α β : Type} (l : List α) (g : α → List β) (c : Nat)
    (h : ∀ a, (g a).length = c) :
    (List.map (List.length ∘ g) l).sum = l.length * c := by
  induction l with
  | nil => simp
  | cons a t ih => simp [Function.comp, h, ih, Nat.succ_mul, Nat.add_comm]

theorem length_crossProduct (fs : List (List String)) :
    (crossProduct fs).length = (fs.map List.length).prod := by
  induction fs with
  | nil => simp [crossProduct]
  | cons f rest ih =>
    simp only [crossProduct, List.length_flatMap, List.map_cons, List.prod_cons]
    rw [sum_map_length_const f _ ((crossProduct rest).length) (fun a => by simp), ih]

theorem crossProduct_cons_getElem (rest : List (List String))
    (hrest : ∀ k, k < (rest.map List.length).prod →
      (crossProduct rest)[k]? = some (odometerTuple rest k)) :
    ∀ (f : List String) (k : Nat),
      k < f.length * (rest.map List.length).prod →
      (crossProduct (f :: rest))[k]? =
        some ((f[k / (rest.map List.length).prod]?).getD "" ::
          odometerTuple rest (k % (rest.map List.length).prod)) := by
  intro f
  induction f with
  | nil => intro k hk; simp at hk
  | cons t f' ih =>
    intro k hk
    have hmpos : 0 < (rest.map List.length).prod := by
      rcases Nat.eq_zero_or_pos ((rest.map List.length).prod) with h0 | h
      · rw [h0, Nat.mul_zero] at hk
        exact absurd hk (Nat.not_lt_zero k)
      · exact h
    have hblock : ((crossProduct rest).map (fun tup => t :: tup)).length
        = (rest.map List.length).prod := by
      simp [List.length_map, length_crossProduct]
    have hsplit : crossProduct ((t :: f') :: rest) =
        ((crossProduct rest).map (fun tup => t :: tup)) ++ crossProduct (f' :: rest) := by
      simp [crossProduct]
    by_cases hkm : k < (rest.map List.length).prod
    · rw [hsplit, List.getElem?_append, hblock, if_pos hkm,
        List.getElem?_map, hrest k hkm]
      simp [Nat.div_eq_of_lt hkm, Nat.mod_eq_of_lt hkm]
    · have hmk : (rest.map List.length).prod ≤ k := Nat.le_of_not_lt hkm
      rw [hsplit, List.getElem?_append, hblock, if_neg hkm]
      have hlt : k - (rest.map List.length).prod < f'.length * (rest.map List.length).prod := by
        have h2 : k < f'.length * (rest.map List.length).prod + (rest.map List.length).prod := by
          have h3 := hk
          rw [List.length_cons, Nat.succ_mul] at h3
          exact h3
        omega
      rw [ih (k - (rest.map List.length).prod) hlt]
      have hksplit : k = (k - (rest.map List.length).prod) + (rest.map List.length).prod :=
        (Nat.sub_add_cancel hmk).symm
      have hdiv : k / (rest.map List.length).prod
          = (k - (rest.map List.length).prod) / (rest.map List.length).prod + 1 := by
        conv_lhs => rw [hksplit]
        rw [Nat.add_div_right _ hmpos]
      have hmod : k % (rest.map List.length).prod
          = (k - (rest.map List.length).prod) % (rest.map List.length).prod := by
        conv_lhs => rw [hksplit]
        rw [Nat.add_mod_right]
      rw [hdiv, hmod, List.getElem?_cons_succ]

theorem crossProduct_getElem (fs : List (List String)) (k : Nat)
    (hk : k < (fs.map List.length).prod) :
    (crossProduct fs)[k]? = some (odometerTuple fs k) := by
  induction fs generalizing k with
  | nil =>
    simp only [List.map_nil, List.prod_nil, Nat.lt_one_iff] at hk
    subst hk
    simp [crossProduct, odometerTuple]
  | cons f rest ih =>
    have hk' : k < f.length * (rest.map List.length).prod := by
      simpa [List.prod_cons] using hk
    rw [crossProduct_cons_getElem rest (fun k' hk' => ih k' hk') f k hk']
    rfl

/-- Perm form of removing an in-range index. -/
theorem perm_cons_eraseIdx {α : Type} (l : List α) (i : Nat) (a : α)
    (h : l[i]? = some a) : List.Perm l (a :: l.eraseIdx i) := by
  induction l generalizing i with
  | nil => simp at h
  | cons b l' ih =>
    cases i with
    | zero =>
      simp only [List.getElem?_cons_zero, Option.some_inj] at h
      subst h
      simp [List.eraseIdx]
    | succ i' =>
      simp only [List.getElem?_cons_succ] at h
      have h1 := ih i' h
      have h2 : (b :: l').eraseIdx (i' + 1) = b :: l'.eraseIdx i' := rfl
      rw [h2]
      exact (List.Perm.cons b h1).trans (List.Perm.swap a b (l'.eraseIdx i'))

/-- Claim C1: `enumerate` yields exactly the cross-product of the template's
factor term lists: the tuple count is the product of the factor sizes (so 0
when any factor is empty), and the k-th tuple is the mixed-radix (odometer,
last-slot-fastest) decomposition of k over the factor sizes. -/
theorem c1_enumerate_count_and_order (ns : NameSetDef)
    (elements : List (String × ElementDef)) :
    (enumerate ns elements).length = ((factorsOf ns elements).map List.length).prod ∧
    (∀ k, k < ((factorsOf ns elements).map List.length).prod →
      (enumerate ns elements)[k]? = some (odometerTuple (factorsOf ns elements) k)) :=
  ⟨length_crossProduct _, fun k hk => crossProduct_getElem _ k hk⟩

/-- Witness for C1 at the spec's worked example (factors X = A,B and
Y = 1,2): four tuples, and index 2 is the third tuple in odometer order. -/
theorem c1_enumerate_witness :
    2 < ((factorsOf exNameSet exElements).map List.length).prod ∧
    (enumerate exNameSet exElements)[2]? =
      some (odometerTuple (factorsOf exNameSet exElements) 2) :=
  ⟨by decide, (c1_enumerate_count_and_order exNameSet exElements).2 2 (by decide)⟩

/-- Sanity: the spec's worked enumeration, evaluated. -/
theorem enumerate_example :
    enumerate exNameSet exElements = [["A", "1"], ["A", "2"], ["B", "1"], ["B", "2"]]
      ∧ odometerTuple (factorsOf exNameSet exElements) 2 = ["B", "1"] := by
  decide

/-- Claim C5 counterexample: in `stateC5` the removed term `a` is the current
selection of element `E`; after `handleRemoveElementTerm` the remaining terms
are `[b]`, yet the selection is still `a` — it does not fall back to the first
remaining term as the claim requires. -/
theorem c5_counterexample :
    lookupA stateC5.selections "E" = some "a" ∧
    (handleRemoveElementTerm stateC5 "E" "a").map
        (fun s' => ((lookupA s'.config.elements "E").map ElementDef.terms,
          lookupA s'.selections "E"))
      = some (some ["b"], some "a") ∧
    ¬ ((handleRemoveElementTerm stateC5 "E" "a").map
        (fun s' => lookupA s'.selections "E") = some (some "b")) := by
  decide

/-- Claim C5 (amended): `removeTerm` removes exactly the matching terms from
the named element's list and leaves everything else — in particular the
Selection State — unchanged; no fallback to the first remaining term occurs. -/
theorem c5_removeTerm_amended (s : AppState) (element termToRemove : String)
    (wc : ElementDef) (h : lookupA s.config.elements element = some wc) :
    ∃ s', handleRemoveElementTerm s element termToRemove = some s' ∧
      s'.selections = s.selections ∧
      s'.activeNameSet = s.activeNameSet ∧
      s'.templateOrder = s.templateOrder ∧
      lookupA s'.config.elements element =
        some ⟨wc.terms.filter (fun t => t ≠ termToRemove)⟩ ∧
      (∀ other, other ≠ element →
        lookupA s'.config.elements other = lookupA s.config.elements other) := by
  unfold handleRemoveElementTerm
  rw [h]
  refine ⟨_, rfl, rfl, rfl, rfl, lookupA_assocSet_self _ _ _, fun other hne => ?_⟩
  exact lookupA_assocSet_ne _ _ _ _ (fun he => hne he.symm)

/-- Witness for the amended C5 at the concrete counterexample state. -/
theorem c5_removeTerm_amended_witness :
    ∃ s', handleRemoveElementTerm stateC5 "E" "a" = some s' ∧
      s'.selections = stateC5.selections ∧
      s'.activeNameSet = stateC5.activeNameSet ∧
      s'.templateOrder = stateC5.templateOrder ∧
      lookupA s'.config.elements "E" =
        some ⟨(["a", "b"] : List String).filter (fun t => t ≠ "a")⟩ ∧
      (∀ other, other ≠ "E" →
        lookupA s'.config.elements other = lookupA stateC5.config.elements other) :=
  c5_removeTerm_amended stateC5 "E" "a" ⟨["a", "b"]⟩ rfl

/-- Claim C6 counterexample: with template `[A]`, selection `x` for `A` and
delimiter `_`, the claimed renderer produces `x` but the code's preview
produces the brace-wrapped element name, ignoring the selection. -/
theorem c6_counterexample :
    finalFilename ["A"] ≠ specRenderClaim ⟨["A"], "_", none, none⟩ [("A", "x")] ∧
    specRenderClaim ⟨["A"], "_", none, none⟩ [("A", "x")] = "x" ∧
    finalFilename ["A"] = "\x7bA\x7d" := by
  decide

/-- Claim C6 (amended): the preview maps each element name of the template
order, in order, to the element name wrapped in braces and joins the pieces
with a single space; it is total and consults neither the selections nor the
NameSet delimiter. -/
theorem c6_preview_amended (templateOrder : List String) :
    finalFilename templateOrder = specPreviewAmended templateOrder := by
  induction templateOrder with
  | nil => rfl
  | cons wc rest ih =>
    cases rest with
    | nil => rfl
    | cons b l =>
      have h1 : finalFilename (wc :: b :: l)
          = ("\x7b" ++ wc ++ "\x7d") ++ " " ++ finalFilename (b :: l) := rfl
      rw [h1, ih]
      rfl

/-- Claim C8: for in-range indices, the reorder primitive preserves the
multiset of template entries and moves the entry at `fromIndex` to
`toIndex`. -/
theorem c8_reorder_preserves_multiset (l : List String) (i j : Nat)
    (hi : i < l.length) (hj : j < l.length) :
    ((arrayMove l i j : List String) : Multiset String) = (l : Multiset String) ∧
    (arrayMove l i j)[j]? = l[i]? := by
  have hget : l[i]? = some l[i] := List.getElem?_eq_getElem hi
  have hlen : (l.eraseIdx i).length = l.length - 1 := by
    rw [List.length_eraseIdx]
    simp [hi]
  have hj' : j ≤ (l.eraseIdx i).length := by omega
  constructor
  · rw [Multiset.coe_eq_coe]
    unfold arrayMove
    rw [hget]
    exact (List.perm_insertIdx _ _ hj').trans (perm_cons_eraseIdx l i _ hget).symm
  · unfold arrayMove
    rw [hget]
    show (List.insertIdx j l[i] (l.eraseIdx i))[j]? = some l[i]
    have hlen2 : j < ((l.eraseIdx i).insertIdx j l[i]).length := by
      rw [List.length_insertIdx _ _ hj']
      omega
    rw [List.getElem?_eq_getElem hlen2]
    rw [List.getElem_insertIdx_self _ _ _ hj']

/-- Witness for C8 at a concrete three-entry template. -/
theorem c8_reorder_witness :
    ((arrayMove ["a", "b", "c"] 0 2 : List String) : Multiset String)
        = (["a", "b", "c"] : List String) ∧
    (arrayMove ["a", "b", "c"] 0 2)[2]? = (["a", "b", "c"] : List String)[0]? :=
  c8_reorder_preserves_multiset ["a", "b", "c"] 0 2 (by decide) (by decide)

/-- Claim C9: `addTerm` always makes the added term the selection for that
element — also when the term was already present, in which case the config
(and so the term list) is unchanged; when it was absent it is appended. -/
theorem c9_addTerm_always_selects (s : AppState) (element term : String)
    (wc : ElementDef) (h : lookupA s.config.elements element = some wc) :
    ∃ s', handleAddTerm s element term = some s' ∧
      lookupA s'.selections element = some term ∧
      (term ∈ wc.terms → s'.config = s.config) ∧
      (term ∉ wc.terms →
        lookupA s'.config.elements element = some ⟨wc.terms ++ [term]⟩) := by
  unfold handleAddTerm
  rw [h]
  by_cases hmem : term ∈ wc.terms
  · refine ⟨_, rfl, ?_, fun _ => ?_, fun hab => absurd hmem hab⟩
    · exact lookupA_assocSet_self _ _ _
    · simp [handleSelectionChange, hmem]
  · refine ⟨_, rfl, ?_, fun hab => absurd hab hmem, fun _ => ?_⟩
    · exact lookupA_assocSet_self _ _ _
    · simp only [handleSelectionChange, if_neg hmem]
      exact lookupA_assocSet_self _ _ _

/-- Witness for C9: adding the already-present term `a` still (re)selects it
and leaves the config unchanged. -/
theorem c9_addTerm_witness :
    ∃ s', handleAddTerm stateC5 "E" "a" = some s' ∧
      lookupA s'.selections "E" = some "a" ∧
      ("a" ∈ (⟨["a", "b"]⟩ : ElementDef).terms → s'.config = stateC5.config) ∧
      ("a" ∉ (⟨["a", "b"]⟩ : ElementDef).terms →
        lookupA s'.config.elements "E" = some ⟨["a", "b"] ++ ["a"]⟩) :=
  c9_addTerm_always_selects stateC5 "E" "a" ⟨["a", "b"]⟩ rfl

/-- The group half of the filter, characterised as the claim words it. -/
theorem matchesGroup_iff (g : String) (nsData : NameSetDef) :
    matchesGroup g nsData = true ↔ (g = "All" ∨ nsData.group = some g) := by
  cases hg : nsData.group with
  | none => simp [matchesGroup, hg]
  | some gr => simp [matchesGroup, hg]

/-- The tag half of the filter, characterised with the trim-empty test and
the case-insensitive occurrence proposition. -/
theorem matchesTag_iff (t : String) (nsData : NameSetDef) :
    matchesTag t nsData = true ↔
      (jsTrim t = "" ∨ ∃ tg ∈ nsData.tags.getD [], CaseInsensOccurs t tg) := by
  cases ht : nsData.tags with
  | none => simp [matchesTag, ht, String.isEmpty_iff]
  | some tags =>
    simp only [matchesTag, ht, Bool.or_eq_true, String.isEmpty_iff,
      List.any_eq_true, Option.getD_some]
    constructor
    · rintro (h | ⟨tg, htg, hocc⟩)
      · exact Or.inl h
      · exact Or.inr ⟨tg, htg, (containsSub_iff _ _).mp hocc⟩
    · rintro (h | ⟨tg, htg, hocc⟩)
      · exact Or.inl h
      · exact Or.inr ⟨tg, htg, (containsSub_iff _ _).mpr hocc⟩

/-- Claim C7 (amended): the filter returns exactly the NameSet names passing
(group is "All" or matches exactly) and (the tag filter trims to empty, or
occurs case-insensitively inside some tag), as a sublist of — hence in — the
project's insertion order. -/
theorem c7_filter_amended (cfg : ConfigObj) (g t : String) :
    (filterNameSets cfg g t).Sublist (cfg.nameSets.map Prod.fst) ∧
    (∀ ns, ns ∈ filterNameSets cfg g t ↔
      (ns ∈ cfg.nameSets.map Prod.fst ∧ AmendedFilterPred cfg g t ns)) := by
  constructor
  · exact List.filter_sublist _
  · intro ns
    rw [filterNameSets, List.mem_filter]
    apply and_congr_right
    intro _
    cases hl : lookupA cfg.nameSets ns with
    | none =>
      simp only [AmendedFilterPred, hl]
      constructor
      · intro h
        exact absurd h (by simp)
      · rintro ⟨nsData, hcontra, -⟩
        exact absurd hcontra (by simp)
    | some nsData =>
      simp only [AmendedFilterPred, hl, Bool.and_eq_true, matchesGroup_iff,
        matchesTag_iff, Option.some_inj]
      constructor
      · rintro ⟨h1, h2⟩
        exact ⟨nsData, rfl, h1, h2⟩
      · rintro ⟨nsData', heq, h1, h2⟩
        subst heq
        exact ⟨h1, h2⟩

/-- Claim C7 counterexample: with a single NameSet having no tags, the tag
filter `" "` (one blank) is not the empty string and occurs in no tag, so the
claim excludes the NameSet — but the code's trim-based emptiness test keeps
it. -/
theorem c7_counterexample :
    "N" ∈ filterNameSets cfgC7 "All" " " ∧ ¬ ClaimFilterPred cfgC7 "All" " " "N" := by
  constructor
  · decide
  · rintro ⟨nsData, hl, -, ht⟩
    rw [show lookupA cfgC7.nameSets "N"
        = some (⟨[], "_", some "G", some []⟩ : NameSetDef) from rfl] at hl
    injection hl with hEq
    subst hEq
    rcases ht with h | ⟨tg, htg, -⟩
    · exact absurd h (by decide)
    · simp at htg

/-- Claim C2: the code FAILS this claim.  `docC2` is a current-schema document
whose element `E` has the single Term `presets`; the text-level migration
replace rewrites that Term to `nameSets`, both in the migrated document and in
the state a successful Load installs. -/
theorem c2_term_corrupted :
    termStrAt ((parseJson docC2).getD Json.null) "E" 0 = some "presets" ∧
    (match migrate docC2 with
     | .ok d => termStrAt d "E" 0
     | .error _ => none) = some "nameSets" ∧
    termStrAt (loadProject stateC4 docC2).config "E" 0 = some "nameSets" := by
  refine ⟨by decide, by decide, by decide⟩

/-- Claim C3: the code FAILS the identity half of this claim.  `docC3` is
already in the current schema (with `group` and `tags` present), yet migrating
it changes the Term `categories` of element `F` to `elements`, so migration of
a current document is not the identity. -/
theorem c3_migrate_not_identity :
    termStrAt ((parseJson docC3).getD Json.null) "F" 0 = some "categories" ∧
    (match migrate docC3 with
     | .ok d => termStrAt d "F" 0
     | .error _ => none) = some "elements" ∧
    termStrAt ((parseJson docC3).getD Json.null) "F" 1 = some "keep" ∧
    (match migrate docC3 with
     | .ok d => termStrAt d "F" 1
     | .error _ => none) = some "keep" := by
  refine ⟨by decide, by decide, by decide, by decide⟩

/-- Claim C4 counterexample: `docC4` has `nameSets` and `elements` present as
the number `5` — truthy but not mappings.  The claim requires Load to fail and
leave the state unchanged; instead migration succeeds and the load replaces
the state (the active NameSet becomes the empty string). -/
theorem c4_counterexample :
    isOkE (migrate docC4) = true ∧
    (loadProject stateC4 docC4).activeNameSet = "" ∧
    stateC4.activeNameSet = "Locomotion" := by
  refine ⟨by decide, by decide, rfl⟩

/-- Claim C4 (amended): when the document (after the key renames) parses to a
non-null value whose `nameSets` or `elements` member is absent or falsy, Load
fails with the invalid-project-format error and the state is left completely
unchanged.  (A present, truthy non-mapping member is accepted instead, per the
counterexample.) -/
theorem c4_load_invalid_amended (s : LoadedState) (t : String) (doc : Json)
    (hparse : parseJsonChars (migrateText t.toList) = some doc)
    (hnn : doc ≠ Json.null)
    (hfail : truthyOpt (jsIndex doc "nameSets") = false ∨
             truthyOpt (jsIndex doc "elements") = false) :
    migrate t = .error .invalidFormat ∧ loadProject s t = s := by
  have hget : ∀ k, jsGetE doc k = .ok (jsIndex doc k) := by
    intro k
    cases doc with
    | null => exact absurd rfl hnn
    | bool b => rfl
    | num n => rfl
    | str s => rfl
    | arr xs => rfl
    | obj fs => rfl
  have hparse' : parseJsonChars (migrateText t.data) = some doc := hparse
  have hmig : migrate t = .error .invalidFormat := by
    rcases hfail with h | h
    · simp [migrate, hparse', hget, h]
    · simp [migrate, hparse', hget, h]
  refine ⟨hmig, ?_⟩
  rw [loadProject, hmig]

/-- Witness for the amended C4: a document with `"nameSets": null`. -/
theorem c4_load_invalid_witness :
    migrate "\x7b\"nameSets\":null,\"elements\":\x7b\x7d\x7d"
      = .error .invalidFormat ∧
    loadProject stateC4 "\x7b\"nameSets\":null,\"elements\":\x7b\x7d\x7d"
      = stateC4 :=
  c4_load_invalid_amended stateC4 _
    (Json.obj [("nameSets", Json.null), ("elements", Json.obj [])])
    rfl (fun h => Json.noConfusion h) (Or.inl (by decide))

/-- `mapM` over `Except` with pointwise-successful steps. -/
theorem mapM_ok {ε α β : Type} (l : List α) (f : α → Except ε β) (g : α → β)
    (h : ∀ a ∈ l, f a = .ok (g a)) : l.mapM f = .ok (l.map g) := by
  induction l with
  | nil => rfl
  | cons a l ih =>
    rw [List.mapM_cons, h a (List.mem_cons_self a l),
      ih (fun x hx => h x (List.mem_cons_of_mem a hx))]
    rfl

/-- With nodup keys, every entry of an association list is found by lookup. -/
theorem lookupA_of_nodup {α : Type} (l : List (String × α)) :
    (l.map Prod.fst).Nodup → ∀ p ∈ l, lookupA l p.1 = some p.2 := by
  induction l with
  | nil =>
    intro _ p hp
    simp at hp
  | cons q rest ih =>
    intro hnd p hp
    obtain ⟨k0, v0⟩ := q
    rw [List.map_cons] at hnd
    have hnd' := List.nodup_cons.mp hnd
    rcases List.mem_cons.mp hp with rfl | hp'
    · simp [lookupA]
    · have hp1 : p.1 ∈ rest.map Prod.fst := List.mem_map_of_mem Prod.fst hp'
      have hne : k0 ≠ p.1 := fun he => hnd'.1 (he ▸ hp1)
      simp only [lookupA, if_neg hne]
      exact ih hnd'.2 p hp'

/-- Appending a single differently-named key does not change a lookup. -/
theorem lookupA_append_single_ne {α : Type} (l : List (String × α))
    (k0 k : String) (w : α) (h : k0 ≠ k) :
    lookupA (l ++ [(k0, w)]) k = lookupA l k := by
  induction l with
  | nil => simp [lookupA, h]
  | cons p rest ih =>
    obtain ⟨k1, v1⟩ := p
    by_cases h1 : k1 = k
    · simp [lookupA, h1]
    · simp [lookupA, h1, ih]

/-- The backfill only adds `group`/`tags`, so the `template` member is
unchanged. -/
theorem lookupA_backfillFields_template (fs : List (String × Json)) :
    lookupA (backfillFields fs) "template" = lookupA fs "template" := by
  have e1 : ∀ (l : List (String × Json)) w,
      lookupA (l ++ [("group", w)]) "template" = lookupA l "template" :=
    fun l w => lookupA_append_single_ne l "group" "template" w (by decide)
  have e2 : ∀ (l : List (String × Json)) w,
      lookupA (l ++ [("tags", w)]) "template" = lookupA l "template" :=
    fun l w => lookupA_append_single_ne l "tags" "template" w (by decide)
  have hTags : ∀ l, lookupA (backfillTags l) "template" = lookupA l "template" := by
    intro l
    unfold backfillTags
    split_ifs
    · rw [e2]
    · rfl
  have hGroup : lookupA (backfillGroup fs) "template" = lookupA fs "template" := by
    unfold backfillGroup
    split_ifs
    · rw [e1]
    · rfl
  rw [backfillFields, hTags, hGroup]

/-- Backfill over an object whose entries are all objects succeeds and maps
each entry through `backfillValue`. -/
theorem backfillNs_obj (nss : List (String × Json))
    (h : ∀ p ∈ nss, ∃ fs, p.2 = Json.obj fs) :
    backfillNs (Json.obj nss)
      = .ok (Json.obj (nss.map (fun p => (p.1, backfillValue p.2)))) := by
  have hF : ∀ p ∈ nss,
      (do
        let v' ← backfillEntry p.2
        pure (p.1, v') : Except LoadErr (String × Json))
      = .ok (p.1, backfillValue p.2) := by
    intro p hp
    obtain ⟨fs, hfs⟩ := h p hp
    rw [hfs]
    rfl
  show (do
      let fs' ← nss.mapM (fun kv => do
        let v' ← backfillEntry kv.2
        pure (kv.1, v'))
      pure (Json.obj fs') : Except LoadErr Json) = _
  rw [mapM_ok nss _ _ hF]
  rfl

/-- A selection default computed from a well-shaped element entry. -/
theorem selectionValue_of_terms (els : List (String × Json)) (wc : String)
    (v : Json) (ts : List String) (hlv : lookupA els wc = some v)
    (hts : termsOfEl v = some ts) :
    selectionValue (Json.obj els) wc = .ok (Json.str (specSelection ts)) := by
  cases hjt : jsIndex v "terms" with
  | none => simp [termsOfEl, hjt] at hts
  | some jv =>
    cases jv with
    | arr xs =>
      simp only [termsOfEl, hjt] at hts
      have hvnn : v ≠ Json.null := by
        intro he
        rw [he] at hjt
        cases hjt
      have hgv : jsGetE v "terms" = .ok (jsIndex v "terms") := by
        cases v with
        | null => exact absurd rfl hvnn
        | bool b => rfl
        | num n => rfl
        | str s => rfl
        | arr ys => rfl
        | obj fs => rfl
      have hsel : jsOrEmptyStr xs[0]? = Json.str (specSelection ts) := by
        cases xs with
        | nil =>
          have h0 : ts = [] := by
            have h1 : (some [] : Option (List String)) = some ts := hts
            exact (Option.some_inj.mp h1).symm
          subst h0
          rfl
        | cons x xs' =>
          cases hx : jsonStr? x with
          | none => simp [mapStrList, hx] at hts
          | some s0 =>
            cases hrest : mapStrList xs' with
            | none => simp [mapStrList, hx, hrest] at hts
            | some rest0 =>
              simp only [mapStrList, hx, hrest] at hts
              have hts' : ts = s0 :: rest0 := by
                exact (Option.some_inj.mp hts).symm
              subst hts'
              have hxs : x = Json.str s0 := by
                cases x <;> simp [jsonStr?] at hx
                rw [hx]
              subst hxs
              rw [List.getElem?_cons_zero]
              show jsOrEmptyStr (some (Json.str s0)) = Json.str s0
              by_cases hs0 : s0.isEmpty
              · have h1 : s0 = "" := (String.isEmpty_iff s0).mp hs0
                subst h1
                rfl
              · simp [jsOrEmptyStr, truthy, hs0]
      have h1 : jsGetE (Json.obj els) wc = .ok (some v) := by
        show Except.ok (lookupA els wc) = _
        rw [hlv]
      have hnk : natKey "0" = some 0 := by decide
      have h2 : jsGetE (Json.arr xs) "0" = .ok xs[0]? := by
        show Except.ok (jsIndex (Json.arr xs) "0") = _
        simp only [jsIndex, hnk]
      simp only [selectionValue, h1, hgv, hjt, h2, hsel]
    | null => simp [termsOfEl, hjt] at hts
    | bool b => simp [termsOfEl, hjt] at hts
    | num n => simp [termsOfEl, hjt] at hts
    | str s => simp [termsOfEl, hjt] at hts
    | obj fs => simp [termsOfEl, hjt] at hts

/-- The `defaultSels` loop over a well-shaped `elements` object. -/
theorem buildSelections_obj (els : List (String × Json))
    (hnd : (els.map Prod.fst).Nodup)
    (hterms : ∀ p ∈ els, (termsOfEl p.2).isSome = true) :
    buildSelections (Json.obj els)
      = .ok (els.map (fun p =>
          (p.1, Json.str (specSelection ((termsOfEl p.2).getD []))))) := by
  have hlk := lookupA_of_nodup els hnd
  have hstep : ∀ wc ∈ els.map Prod.fst,
      (do
        let v ← selectionValue (Json.obj els) wc
        pure (wc, v) : Except LoadErr (String × Json))
      = .ok (wc, Json.str (specSelection
          ((termsOfEl ((lookupA els wc).getD Json.null)).getD []))) := by
    intro wc hwc
    obtain ⟨p, hp, hp1⟩ := List.mem_map.mp hwc
    obtain ⟨ts, hts⟩ := Option.isSome_iff_exists.mp (hterms p hp)
    have hlv : lookupA els wc = some p.2 := hp1 ▸ hlk p hp
    rw [selectionValue_of_terms els wc p.2 ts hlv hts, hlv]
    simp [hts]
  rw [buildSelections]
  rw [show jsKeys (Json.obj els) = els.map Prod.fst from rfl]
  rw [mapM_ok _ _ _ hstep]
  congr 1
  rw [List.map_map]
  apply List.map_congr_left
  intro p hp
  simp only [Function.comp]
  rw [hlk p hp]
  rfl

/-- Lookup at the head key of an association list. -/
theorem lookupA_cons_self {α : Type} (k : String) (v : α)
    (l : List (String × α)) : lookupA ((k, v) :: l) k = some v := by
  simp [lookupA]

/-- `activeAndTemplate` on an object of objects whose first key is a
non-empty (truthy) string: the first key with its `template` member. -/
theorem activeAndTemplate_cons (k1 : String) (fs1 : List (String × Json))
    (l : List (String × Json)) (hk : k1.isEmpty = false) :
    activeAndTemplate (Json.obj ((k1, Json.obj fs1) :: l))
      = .ok (k1, lookupA fs1 "template") := by
  simp only [activeAndTemplate, jsKeys, List.map_cons]
  rw [show jsGetE (Json.obj ((k1, Json.obj fs1) :: l)) k1
      = Except.ok (some (Json.obj fs1)) from by
    show Except.ok (lookupA ((k1, Json.obj fs1) :: l) k1) = _
    rw [lookupA_cons_self]]
  rw [hk]
  rfl

/-- `activeAndTemplate` on an object whose first key is the empty string: the
falsy key takes the else branch. -/
theorem activeAndTemplate_emptyKey (x : Json) (l : List (String × Json)) :
    activeAndTemplate (Json.obj (("", x) :: l)) = .ok ("", some (Json.arr [])) := by
  simp only [activeAndTemplate, jsKeys, List.map_cons]
  rfl

/-- Claim C10 (amended): a successful Load installs the migrated config;
when the first key of the loaded `nameSets` mapping is a non-empty string it
becomes the active NameSet and that NameSet's `template` the template order,
while an empty mapping — or a first key equal to the empty string, which is
falsy under the source's `if (firstNameSet)` test — yields the empty active
name and an empty template order; and every element's selection is reset to
its first term, or to the empty string when its term list is empty. -/
theorem c10_load_success (s : LoadedState) (t : String) (doc : Json)
    (nss els : List (String × Json))
    (hparse : parseJsonChars (migrateText t.toList) = some doc)
    (hNs : jsIndex doc "nameSets" = some (Json.obj nss))
    (hEl : jsIndex doc "elements" = some (Json.obj els))
    (hWFns : ∀ p ∈ nss, ∃ fs, p.2 = Json.obj fs)
    (hWFel : ∀ p ∈ els, (termsOfEl p.2).isSome = true)
    (hnd : (els.map Prod.fst).Nodup) :
    isOkE (migrate t) = true ∧
    ((loadProject s t).activeNameSet, (loadProject s t).templateOrder) =
      (match nss with
       | [] => ("", some (Json.arr []))
       | (k1, v1) :: _ =>
         if k1 = "" then ("", some (Json.arr []))
         else (k1, jsIndex v1 "template")) ∧
    (loadProject s t).selections =
      els.map (fun p => (p.1, Json.str (specSelection ((termsOfEl p.2).getD [])))) := by
  obtain ⟨dfs, rfl⟩ : ∃ dfs, doc = Json.obj dfs := by
    cases doc with
    | obj dfs => exact ⟨dfs, rfl⟩
    | null => exact Option.noConfusion hNs
    | bool b => exact Option.noConfusion hNs
    | num n => exact Option.noConfusion hNs
    | str st => exact Option.noConfusion hNs
    | arr xs => exact Option.noConfusion hNs
  have hNs' : lookupA dfs "nameSets" = some (Json.obj nss) := hNs
  have hEl' : lookupA dfs "elements" = some (Json.obj els) := hEl
  have hparse' : parseJsonChars (migrateText t.data) = some (Json.obj dfs) := hparse
  have hbf := backfillNs_obj nss hWFns
  have hmig : migrate t = .ok (Json.obj (assocSet dfs "nameSets"
      (Json.obj (nss.map (fun p => (p.1, backfillValue p.2)))))) := by
    simp [migrate, hparse', jsGetE, jsIndex, hNs', hEl', truthyOpt, truthy,
      hbf, jsSetKey]
  have hcfg_ns : jsIndex (Json.obj (assocSet dfs "nameSets"
      (Json.obj (nss.map (fun p => (p.1, backfillValue p.2)))))) "nameSets"
      = some (Json.obj (nss.map (fun p => (p.1, backfillValue p.2)))) := by
    show lookupA (assocSet dfs "nameSets" _) "nameSets" = _
    exact lookupA_assocSet_self _ _ _
  have hcfg_el : jsIndex (Json.obj (assocSet dfs "nameSets"
      (Json.obj (nss.map (fun p => (p.1, backfillValue p.2)))))) "elements"
      = some (Json.obj els) := by
    show lookupA (assocSet dfs "nameSets" _) "elements" = _
    rw [lookupA_assocSet_ne _ _ _ _ (by decide)]
    exact hEl'
  have hbs := buildSelections_obj els hnd hWFel
  have hstate : ∀ (a : String) (tp : Option Json),
      activeAndTemplate (Json.obj (nss.map (fun p => (p.1, backfillValue p.2))))
        = .ok (a, tp) →
      loadProject s t =
        { config := Json.obj (assocSet dfs "nameSets"
            (Json.obj (nss.map (fun p => (p.1, backfillValue p.2))))),
          activeNameSet := a,
          templateOrder := tp,
          selections := els.map (fun p =>
            (p.1, Json.str (specSelection ((termsOfEl p.2).getD [])))) } := by
    intro a tp hAT
    simp only [loadProject, hmig, hcfg_ns, Option.getD_some, hAT, hcfg_el, hbs]
  refine ⟨by rw [hmig]; rfl, ?_⟩
  cases nss with
  | nil =>
    have hAT : activeAndTemplate (Json.obj (([] : List (String × Json)).map
        (fun p => (p.1, backfillValue p.2)))) = .ok ("", some (Json.arr [])) := rfl
    rw [hstate "" (some (Json.arr [])) hAT]
    exact ⟨rfl, rfl⟩
  | cons p rest =>
    obtain ⟨k1, v1⟩ := p
    obtain ⟨fs1, hfs1⟩ := hWFns (k1, v1) (List.mem_cons_self _ _)
    have hfs1' : v1 = Json.obj fs1 := hfs1
    subst hfs1'
    by_cases hk : k1 = ""
    · subst hk
      have hAT' : activeAndTemplate (Json.obj ((("", Json.obj fs1) :: rest).map
          (fun p => (p.1, backfillValue p.2))))
          = .ok ("", some (Json.arr [])) :=
        activeAndTemplate_emptyKey _ _
      rw [hstate "" (some (Json.arr [])) hAT']
      exact ⟨rfl, rfl⟩
    · have hke : k1.isEmpty = false := by
        cases he : k1.isEmpty with
        | false => rfl
        | true => exact absurd ((String.isEmpty_iff k1).mp (by rw [he])) hk
      have hAT := activeAndTemplate_cons k1 (backfillFields fs1)
        (rest.map (fun p => (p.1, backfillValue p.2))) hke
      rw [lookupA_backfillFields_template] at hAT
      have hAT' : activeAndTemplate (Json.obj (((k1, Json.obj fs1) :: rest).map
          (fun p => (p.1, backfillValue p.2))))
          = .ok (k1, lookupA fs1 "template") := hAT
      rw [hstate k1 (lookupA fs1 "template") hAT']
      refine ⟨?_, rfl⟩
      show (k1, lookupA fs1 "template")
          = if k1 = "" then ("", some (Json.arr []))
            else (k1, jsIndex (Json.obj fs1) "template")
      rw [if_neg hk]
      rfl

/-- Claim C10 counterexample: `docC10b`'s `nameSets` mapping is non-empty but
its first (and only) key is the empty string, which is falsy under the
source's `if (firstNameSet)` test.  The load succeeds and the program takes
the else branch: the template order becomes `[]`, although that NameSet's
template is `["E"]` — contradicting the claim, which says the template order
becomes the first NameSet's template. -/
theorem c10_counterexample :
    isOkE (migrate docC10b) = true ∧
    (loadProject stateC4 docC10b).activeNameSet = "" ∧
    (loadProject stateC4 docC10b).templateOrder = some (Json.arr []) ∧
    (match jsIndex (loadProject stateC4 docC10b).config "nameSets" with
     | some (Json.obj ((k, v) :: _)) => some (k, jsIndex v "template")
     | _ => none) = some ("", some (Json.arr [Json.str "E"])) ∧
    (some (Json.arr []) : Option Json) ≠ some (Json.arr [Json.str "E"]) :=
  ⟨rfl, rfl, rfl, rfl, by simp⟩

/-- Witness for the amended C10 at the concrete document `docC10`: the active
NameSet becomes `A`, the template order becomes `["E"]`, and element `E`'s
selection resets to its first term `x`. -/
theorem c10_load_success_witness :
    isOkE (migrate docC10) = true ∧
    ((loadProject stateC4 docC10).activeNameSet,
      (loadProject stateC4 docC10).templateOrder)
      = ("A", some (Json.arr [Json.str "E"])) ∧
    (loadProject stateC4 docC10).selections = [("E", Json.str "x")] := by
  have h := c10_load_success stateC4 docC10
      (Json.obj
        [("nameSets", Json.obj [("A", Json.obj [("template", Json.arr [Json.str "E"]),
            ("delimiter", Json.str "_")])]),
         ("elements", Json.obj [("E", Json.obj [("terms", Json.arr [Json.str "x"])])])])
      [("A", Json.obj [("template", Json.arr [Json.str "E"]), ("delimiter", Json.str "_")])]
      [("E", Json.obj [("terms", Json.arr [Json.str "x"])])]
      rfl rfl rfl
      (by
        rintro p hp
        rw [List.mem_singleton] at hp
        subst hp
        exact ⟨_, rfl⟩)
      (by
        rintro p hp
        rw [List.mem_singleton] at hp
        subst hp
        decide)
      (by decide)
  exact h

end Ludonomia
